import Mathlib

/-!
Verification of the podcatcher-rs sync-and-download engine
(src/download.rs, src/cli.rs, src/config.rs).

The Rust code is shallowly embedded: paths are the strings Rust's
`PathBuf` stores (Unix separator `/`), machine integers (`usize`) are
`Nat` (byte counts in this program are far below 2^64, and the only
arithmetic is addition and truncating division, which cannot overflow in
the program's range), and external effects (HTTP, the filesystem, the
`url` crate's parser) are passed in as explicit function parameters.
A Rust panic (`unwrap` on an `Err`) is modelled as `Option.none`.
-/

namespace Podcatcher

/-- Splits a list of characters at each `/`: returns the segment before
the first `/` and the list of the remaining segments. -/
def splitSegAux : List Char → List Char × List (List Char)
  | [] => ([], [])
  | c :: rest =>
    let r := splitSegAux rest
    if c = '/' then ([], r.1 :: r.2) else (c :: r.1, r.2)

/-- Splits a list of characters on the separator character `/`, keeping
empty segments, as Rust path-component iteration does before it filters
them.  `splitSeg [] = [[]]`; every `/` starts a new segment. -/
def splitSeg (l : List Char) : List (List Char) :=
  (splitSegAux l).1 :: (splitSegAux l).2

/-- The segment filter of Rust path components: empty segments and `.`
segments are skipped (except a leading `.`, which `file_name` never
returns anyway). -/
def keepSeg (seg : List Char) : Bool :=
  decide (seg ≠ [] ∧ seg ≠ ['.'])

/-- Models Rust `std::path::Path::file_name` on the character list of a
Unix path: the final path component, skipping empty components and `.`
components, and `none` when the path has no component or terminates in
`..`. -/
def fileNameCore (l : List Char) : Option (List Char) :=
  ((splitSeg l).filter keepSeg).getLast?.bind
    (fun seg => if seg = ['.', '.'] then none else some seg)

/-- Models Rust `std::path::Path::file_name` on a Unix path string
(e.g. `Path::new("foo.txt/.//").file_name() == Some("foo.txt")`, and
`None` for the paths `""`, `"/"` and `"a/.."`). -/
def fileName (s : String) : Option String :=
  (fileNameCore s.toList).map String.mk

/-- Whether a Unix path string is absolute (starts with `/`), as Rust
`Path::is_absolute` on Unix. -/
def isAbsolute (s : String) : Bool :=
  match s.toList with
  | [] => false
  | c :: _ => c = '/'

/-- Models Rust `PathBuf::push` on Unix: an absolute argument replaces
the path, otherwise the argument is appended, inserting a `/` separator
unless the path is empty or already ends in `/`. -/
def pushPath (p : String) (s : String) : String :=
  if isAbsolute s then s
  else if p.toList = [] then s
  else if p.toList.getLast? = some '/' then p ++ s
  else p ++ "/" ++ s

/-- Parses an unsigned decimal integer as Rust
`str::parse::<usize>` does: an optional leading `+`, then one or more
ASCII digits, anything else is an error (`none`).  Rust additionally
errors on overflow past `usize::MAX`; `Nat` has no overflow, which only
enlarges the set of `some` results and never maps a different string to
`some 0`. -/
def parseDigits (l : List Char) : Option Nat :=
  if l = [] then none
  else if l.all Char.isDigit then
    some (l.foldl (fun acc c => acc * 10 + (c.toNat - 48)) 0)
  else none

/-- Rust `str::parse::<usize>().ok()`: see `parseDigits`. -/
def parseUsize (s : String) : Option Nat :=
  match s.toList with
  | '+' :: rest => parseDigits rest
  | l => parseDigits l

/-- A parsed URL, as produced by `reqwest::Url::parse` (the `url`
crate, external to this repository).  The engine only reads the parsed
URL's path (`url.path()`), so the embedding records exactly that. -/
structure Url where
  path : String
deriving DecidableEq, Repr

/-- An RSS enclosure (`rss::Enclosure`): the attachment URL string and
the declared length string, the two fields the planner reads. -/
structure Enclosure where
  url : String
  length : String
deriving DecidableEq, Repr

/-- An RSS guid (`rss::Guid`): the planner reads only `value`. -/
structure Guid where
  value : String
deriving DecidableEq, Repr

/-- An RSS channel item (`rss::Item`): the planner reads the optional
enclosure and the optional guid. -/
structure Item where
  enclosure : Option Enclosure
  guid : Option Guid
deriving DecidableEq, Repr

/-- An RSS channel (`rss::Channel`): the planner reads the title and
the item list (in feed order, newest first by RSS convention). -/
structure Channel where
  title : String
  items : List Item
deriving DecidableEq, Repr

/-- Configuration for a single podcast, `PodcastConfig` in
src/config.rs: the feed URL and the optional display-title override.
The `title` field is required by its use `podcast.title` at
src/download.rs line 161. -/
structure PodcastConfig where
  feed_url : String
  title : Option String
deriving DecidableEq, Repr

/-- A planned episode download, `EpisodeDownload` in src/download.rs. -/
structure EpisodeDownload where
  guid : String
  url : Url
  file_size : Option Nat
  file_path : String
deriving DecidableEq, Repr

/-- Models `EpisodeDownload::file_name` (src/download.rs lines 29-32):
`self.file_path.file_name().unwrap().to_str().unwrap()`.  The first
unwrap panics iff `fileName` is `none` (modelled as `none` here); the
second (`OsStr::to_str`) cannot fail in this embedding because every
path is built from Rust `String`s, which are valid UTF-8. -/
def EpisodeDownload.fileNameStr (dl : EpisodeDownload) : Option String :=
  fileName dl.file_path

/-- Models `to_human_size` (src/download.rs lines 46-53). -/
def to_human_size (size : Nat) : Nat × Char :=
  if size ≥ 1000000000 then (size / 1000000000, 'G')
  else if size ≥ 1000000 then (size / 1000000, 'M')
  else if size ≥ 1000 then (size / 1000, 'K')
  else (size, 'B')

/-- The observable part of a `HEAD` response: whether the status was a
success, and the `Content-Length` header value as a string when present
and convertible to `str` (`HeaderValue::to_str().ok()`). -/
structure HeadResponse where
  statusSuccess : Bool
  contentLength : Option String
deriving DecidableEq, Repr

/-- Models `retrieve_content_length` (src/download.rs lines 58-77) as a
function of the `HEAD` response (`none` when the request itself
failed): on a success status, parse the `Content-Length` header and
keep it only if positive. -/
def retrieve_content_length (resp : Option HeadResponse) : Option Nat :=
  resp.bind (fun r =>
    if r.statusSuccess then
      r.contentLength.bind (fun s =>
        (parseUsize s).bind (fun n => if n > 0 then some n else none))
    else none)

/-- Models the per-item closure of `fetch_sync_info`
(src/download.rs lines 168-203): skip items without an enclosure,
normalise a zero or unparsable declared length to `none`, skip items
whose enclosure URL does not parse (`parseUrl` stands for
`reqwest::Url::parse`), take the guid value or fall back to the URL
string, and resolve the target path as the channel directory plus the
URL path's last segment (or the fixed fallback `episode.mp3`). -/
def planItem (parseUrl : String → Option Url) (dirPath : String) (item : Item) :
    Option EpisodeDownload :=
  match item.enclosure with
  | none => none
  | some enc =>
    let url_string := enc.url
    let file_size := (parseUsize enc.length).bind
      (fun length => if length > 0 then some length else none)
    match parseUrl url_string with
    | none => none
    | some url =>
      let guid := (item.guid.map Guid.value).getD url_string
      let file_name := (fileName url.path).getD "episode.mp3"
      let file_path := pushPath dirPath file_name
      some { guid := guid, url := url, file_size := file_size, file_path := file_path }

/-- Models the per-channel body of the `flat_map` in `fetch_sync_info`
(src/download.rs lines 160-206): resolve the effective title
(subscription override, else the channel title), push it onto the
download directory, then `filter_map` the items through `planItem`,
`take(1)`, and drop any download whose target file already exists
(`fileExists` stands for `Path::exists`). -/
def planChannel (parseUrl : String → Option Url) (fileExists : String → Bool)
    (directory : String) (podcast : PodcastConfig) (channel : Channel) :
    List EpisodeDownload :=
  let title := podcast.title.getD channel.title
  let dirPath := pushPath directory title
  (((channel.items.filterMap (planItem parseUrl dirPath)).take 1).filter
    (fun dl => !fileExists dl.file_path))

/-- Models the planning phase of `fetch_sync_info`
(src/download.rs lines 157-207) applied to the already-unwrapped fetch
results: `flat_map` of `planChannel` over the `(podcast, channel)`
pairs, in order. -/
def fetch_sync_info (parseUrl : String → Option Url) (fileExists : String → Bool)
    (directory : String) (results : List (PodcastConfig × Channel)) :
    List EpisodeDownload :=
  results.flatMap (fun pc => planChannel parseUrl fileExists directory pc.1 pc.2)

/-- The error type of a feed fetch (transport or RSS parse failure). -/
abbrev FetchError := String

/-- Models `fetch_sync_info` as written (src/download.rs lines
157-207), including the `result.unwrap()` at line 160: iterating the
fetch results, any `Err` makes `unwrap` panic, which aborts the whole
plan (modelled as `none`); only when every fetch succeeded does the
function return the planned list. -/
def fetch_sync_info_run (parseUrl : String → Option Url) (fileExists : String → Bool)
    (directory : String) (results : List (Except FetchError (PodcastConfig × Channel))) :
    Option (List EpisodeDownload) :=
  (results.mapM Except.toOption).map (fetch_sync_info parseUrl fileExists directory)

/-- Models the aggregate-size fold in `main` (src/cli.rs lines 67-73):
total size with unknown sizes counted as 0, and a flag set when any
size is 0 or unknown. -/
def aggregate (files : List EpisodeDownload) : Nat × Bool :=
  files.foldl
    (fun acc file =>
      let size := file.file_size.getD 0
      (acc.1 + size, acc.2 || size == 0))
    (0, false)

/-! Concrete sample data, used by the witness theorems. -/

/-- Sample parsed URL: the path of `https://example.com/ep/42/show.mp3`. -/
def exUrl : Url := ⟨"/ep/42/show.mp3"⟩

/-- Sample `reqwest::Url::parse` behaviour: parses exactly the sample
enclosure URL. -/
def exParse : String → Option Url :=
  fun s => if s = "https://example.com/ep/42/show.mp3" then some exUrl else none

/-- Sample filesystem on which no file exists. -/
def noFiles : String → Bool := fun _ => false

/-- Sample feed item with a valid enclosure of declared length 1234. -/
def exItem : Item :=
  ⟨some ⟨"https://example.com/ep/42/show.mp3", "1234"⟩, some ⟨"guid-1"⟩⟩

/-- Sample channel holding the sample item. -/
def exChan : Channel := ⟨"Example Channel", [exItem]⟩

/-- Sample subscription with a display-title override. -/
def exPod : PodcastConfig := ⟨"https://example.com/feed.xml", some "My Show"⟩

/-- Sample subscription without a display-title override. -/
def exPodNoTitle : PodcastConfig := ⟨"https://example.com/feed.xml", none⟩

/-- The download the planner produces from the sample data. -/
def exDl : EpisodeDownload := ⟨"guid-1", exUrl, some 1234, "/downloads/My Show/show.mp3"⟩

/-- The download the planner produces from the sample data when the
subscription has no title override (the channel title is used). -/
def exDlChanTitle : EpisodeDownload :=
  ⟨"guid-1", exUrl, some 1234, "/downloads/Example Channel/show.mp3"⟩

/-! Helper lemmas about the path model. -/

theorem splitSegAux_no_slash {l : List Char} (h : '/' ∉ l) :
    splitSegAux l = (l, []) := by
  induction l with
  | nil => rfl
  | cons c rest ih =>
    have hc : c ≠ '/' := fun e => h (e ▸ List.mem_cons_self c rest)
    have hr : '/' ∉ rest := fun e => h (List.mem_cons_of_mem c e)
    simp [splitSegAux, ih hr, hc, Ne.symm hc]

theorem splitSeg_no_slash {l : List Char} (h : '/' ∉ l) :
    splitSeg l = [l] := by
  simp [splitSeg, splitSegAux_no_slash h]

theorem splitSegAux_append_slash (q fnl : List Char) :
    splitSegAux (q ++ '/' :: fnl) = ((splitSegAux q).1, (splitSegAux q).2 ++ splitSeg fnl) := by
  induction q with
  | nil => simp [splitSegAux, splitSeg]
  | cons c rest ih =>
    by_cases hc : c = '/' <;>
      simp [splitSegAux, ih, hc, splitSeg]

theorem splitSeg_append_slash (q fnl : List Char) :
    splitSeg (q ++ '/' :: fnl) = splitSeg q ++ splitSeg fnl := by
  simp [splitSeg, splitSegAux_append_slash]

theorem splitSegAux_no_slash_mem (l : List Char) :
    '/' ∉ (splitSegAux l).1 ∧ ∀ seg ∈ (splitSegAux l).2, '/' ∉ seg := by
  induction l with
  | nil =>
    refine ⟨by simp [splitSegAux], ?_⟩
    intro seg h
    simp [splitSegAux] at h
  | cons c rest ih =>
    obtain ⟨ih1, ih2⟩ := ih
    by_cases hc : c = '/'
    · refine ⟨by simp [splitSegAux, hc], ?_⟩
      intro seg h
      simp only [splitSegAux, hc, if_pos rfl] at h
      rcases List.mem_cons.mp h with h1 | h1
      · exact h1 ▸ ih1
      · exact ih2 seg h1
    · refine ⟨?_, ?_⟩
      · simp only [splitSegAux, if_neg hc]
        intro hmem
        rcases List.mem_cons.mp hmem with h1 | h1
        · exact hc h1.symm
        · exact ih1 h1
      · intro seg h
        simp only [splitSegAux, if_neg hc] at h
        exact ih2 seg h

theorem not_slash_of_mem_splitSeg {l seg : List Char} (h : seg ∈ splitSeg l) :
    '/' ∉ seg := by
  have hx := splitSegAux_no_slash_mem l
  rcases List.mem_cons.mp h with h1 | h1
  · exact h1 ▸ hx.1
  · exact hx.2 seg h1

theorem fileNameCore_props {l seg : List Char} (h : fileNameCore l = some seg) :
    seg ≠ [] ∧ seg ≠ ['.'] ∧ seg ≠ ['.', '.'] ∧ '/' ∉ seg := by
  unfold fileNameCore at h
  cases e : ((splitSeg l).filter keepSeg).getLast? with
  | none => rw [e, Option.none_bind] at h; exact absurd h (by simp)
  | some s =>
    rw [e, Option.some_bind] at h
    by_cases hdd : s = ['.', '.']
    · simp [hdd] at h
    · rw [if_neg hdd] at h
      injection h with h
      subst h
      have hs : s ∈ ((splitSeg l).filter keepSeg).getLast? := by rw [e]; rfl
      obtain ⟨hne, hlast⟩ := List.mem_getLast?_eq_getLast hs
      have hmem : s ∈ (splitSeg l).filter keepSeg := hlast ▸ List.getLast_mem hne
      have hkeep := List.of_mem_filter hmem
      have hsplit := List.mem_of_mem_filter hmem
      have hk : s ≠ [] ∧ s ≠ ['.'] := by simpa [keepSeg] using hkeep
      exact ⟨hk.1, hk.2, hdd, not_slash_of_mem_splitSeg hsplit⟩

theorem fileNameCore_single {fnl : List Char} (h1 : fnl ≠ []) (h2 : fnl ≠ ['.'])
    (h3 : fnl ≠ ['.', '.']) (h4 : '/' ∉ fnl) :
    fileNameCore fnl = some fnl := by
  unfold fileNameCore
  rw [splitSeg_no_slash h4]
  simp [keepSeg, h1, h2, h3]

theorem fileNameCore_append_slash {fnl : List Char} (q : List Char) (h1 : fnl ≠ [])
    (h2 : fnl ≠ ['.']) (h3 : fnl ≠ ['.', '.']) (h4 : '/' ∉ fnl) :
    fileNameCore (q ++ '/' :: fnl) = some fnl := by
  unfold fileNameCore
  rw [splitSeg_append_slash, List.filter_append, splitSeg_no_slash h4]
  have : List.filter keepSeg [fnl] = [fnl] := by simp [keepSeg, h1, h2]
  rw [this, List.getLast?_append_cons]
  simp [h3]

theorem toList_append (a b : String) : (a ++ b).toList = a.toList ++ b.toList :=
  String.data_append a b

theorem mk_toList (s : String) : String.mk s.toList = s := rfl

theorem toList_mk (l : List Char) : (String.mk l).toList = l := rfl

theorem isAbsolute_eq_false {s : String} (h : '/' ∉ s.toList) :
    isAbsolute s = false := by
  unfold isAbsolute
  cases e : s.toList with
  | nil => rfl
  | cons c cs =>
    have hc : c ≠ '/' := fun hcc => h (e ▸ hcc ▸ List.mem_cons_self c cs)
    simp [hc]

theorem fileName_pushPath (p : String) {fn : String} (h1 : fn.toList ≠ [])
    (h2 : fn.toList ≠ ['.']) (h3 : fn.toList ≠ ['.', '.']) (h4 : '/' ∉ fn.toList) :
    fileName (pushPath p fn) = some fn := by
  unfold pushPath
  rw [isAbsolute_eq_false h4, if_neg (by simp)]
  by_cases hp : p.toList = []
  · rw [if_pos hp]
    unfold fileName
    rw [fileNameCore_single h1 h2 h3 h4]
    simp [mk_toList]
  · rw [if_neg hp]
    by_cases hsl : p.toList.getLast? = some '/'
    · rw [if_pos hsl]
      obtain ⟨hne, hlast⟩ := List.mem_getLast?_eq_getLast hsl
      have hdecomp : p.toList.dropLast ++ ['/'] = p.toList := by
        have := List.dropLast_append_getLast hne
        rw [← hlast] at this
        exact this
      unfold fileName
      have htl : (p ++ fn).toList = p.toList.dropLast ++ '/' :: fn.toList := by
        rw [toList_append]
        conv_lhs => rw [← hdecomp]
        rw [List.append_assoc]
        rfl
      rw [htl, fileNameCore_append_slash _ h1 h2 h3 h4]
      simp [mk_toList]
    · rw [if_neg hsl]
      unfold fileName
      have htl : (p ++ "/" ++ fn).toList = p.toList ++ '/' :: fn.toList := by
        rw [toList_append, toList_append, List.append_assoc]
        rfl
      rw [htl, fileNameCore_append_slash _ h1 h2 h3 h4]
      simp [mk_toList]

theorem fileName_props {t fn : String} (h : fileName t = some fn) :
    fn.toList ≠ [] ∧ fn.toList ≠ ['.'] ∧ fn.toList ≠ ['.', '.'] ∧ '/' ∉ fn.toList := by
  unfold fileName at h
  cases e : fileNameCore t.toList with
  | none => rw [e] at h; exact absurd h (by simp)
  | some seg =>
    rw [e] at h
    have hfn : fn = String.mk seg := by simpa using h.symm
    have hprops := fileNameCore_props e
    rw [hfn, toList_mk]
    exact hprops

/-! Helper lemmas about the planner. -/

theorem planItem_eq_some {parseUrl : String → Option Url} {dirPath : String}
    {item : Item} {dl : EpisodeDownload} (h : planItem parseUrl dirPath item = some dl) :
    ∃ enc url, item.enclosure = some enc ∧ parseUrl enc.url = some url ∧
      dl.url = url ∧
      dl.guid = (item.guid.map Guid.value).getD enc.url ∧
      dl.file_size = (parseUsize enc.length).bind
        (fun length => if length > 0 then some length else none) ∧
      dl.file_path = pushPath dirPath ((fileName url.path).getD "episode.mp3") := by
  unfold planItem at h
  cases e1 : item.enclosure with
  | none => rw [e1] at h; exact absurd h (by simp)
  | some enc =>
    rw [e1] at h
    cases e2 : parseUrl enc.url with
    | none =>
      simp only [e2] at h
      exact absurd h (by simp)
    | some url =>
      simp only [e2] at h
      injection h with h
      refine ⟨enc, url, rfl, e2, ?_, ?_, ?_, ?_⟩ <;> rw [← h]

theorem mem_take_one {α : Type} {l : List α} {a : α} (h : a ∈ l.take 1) :
    l.head? = some a := by
  cases l with
  | nil => simp at h
  | cons b l =>
    simp only [List.take, List.take_zero] at h
    rcases List.mem_singleton.mp h with rfl
    rfl

theorem head?_filterMap {α β : Type} (f : α → Option β) (l : List α) :
    (l.filterMap f).head? = l.findSome? f := by
  induction l with
  | nil => rfl
  | cons a l ih =>
    cases e : f a <;> simp [List.filterMap_cons, List.findSome?_cons, e, ih]

theorem mem_planChannel {parseUrl : String → Option Url} {fileExists : String → Bool}
    {directory : String} {podcast : PodcastConfig} {channel : Channel}
    {dl : EpisodeDownload} (h : dl ∈ planChannel parseUrl fileExists directory podcast channel) :
    (∃ item ∈ channel.items,
      planItem parseUrl (pushPath directory (podcast.title.getD channel.title)) item = some dl) ∧
    fileExists dl.file_path = false := by
  unfold planChannel at h
  rw [List.mem_filter] at h
  obtain ⟨h1, h2⟩ := h
  have hmem := List.mem_of_mem_take h1
  rw [List.mem_filterMap] at hmem
  exact ⟨hmem, by simpa using h2⟩

theorem bind_pos_ne_some_zero (o : Option Nat) :
    (o.bind fun n => if n > 0 then some n else none) ≠ some 0 := by
  cases o with
  | none => simp
  | some n =>
    by_cases hn : n > 0
    · simp [hn]
      omega
    · simp [hn]

theorem file_size_ne_some_zero_of_mem {parseUrl : String → Option Url}
    {fileExists : String → Bool} {directory : String}
    {results : List (PodcastConfig × Channel)} {dl : EpisodeDownload}
    (h : dl ∈ fetch_sync_info parseUrl fileExists directory results) :
    dl.file_size ≠ some 0 := by
  unfold fetch_sync_info at h
  rw [List.mem_flatMap] at h
  obtain ⟨pc, hpc, hdl⟩ := h
  obtain ⟨⟨item, hitem, hplan⟩, -⟩ := mem_planChannel hdl
  obtain ⟨enc, url, -, -, -, -, hsize, -⟩ := planItem_eq_some hplan
  rw [hsize]
  exact bind_pos_ne_some_zero _

theorem sum_getD_eq_sum_filterMap (l : List EpisodeDownload)
    (h : ∀ dl ∈ l, dl.file_size ≠ none) :
    (l.map (fun dl => dl.file_size.getD 0)).sum =
      (l.filterMap EpisodeDownload.file_size).sum := by
  induction l with
  | nil => rfl
  | cons dl l ih =>
    have hdl := h dl (List.mem_cons_self dl l)
    cases e : dl.file_size with
    | none => exact absurd e hdl
    | some n =>
      simp only [List.map_cons, List.sum_cons, List.filterMap_cons, e]
      rw [ih (fun d hd => h d (List.mem_cons_of_mem _ hd))]
      simp [e]

theorem aggregate_foldl_fst (l : List EpisodeDownload) :
    ∀ a b, (l.foldl
      (fun acc file =>
        let size := file.file_size.getD 0
        (acc.1 + size, acc.2 || size == 0)) (a, b)).1 =
      a + (l.map (fun dl => dl.file_size.getD 0)).sum := by
  induction l with
  | nil => intro a b; simp
  | cons dl l ih =>
    intro a b
    rw [List.foldl_cons, ih]
    simp only [List.map_cons, List.sum_cons]
    omega

theorem aggregate_foldl_snd (l : List EpisodeDownload) :
    ∀ a b, (l.foldl
      (fun acc file =>
        let size := file.file_size.getD 0
        (acc.1 + size, acc.2 || size == 0)) (a, b)).2 =
      (b || l.any (fun dl => dl.file_size.getD 0 == 0)) := by
  induction l with
  | nil => intro a b; simp
  | cons dl l ih =>
    intro a b
    rw [List.foldl_cons, ih]
    simp [Bool.or_assoc]

/-! Claim theorems. -/

/-- C3: for every non-negative byte count `n`, `to_human_size n` is
`(n / 10^9, 'G')` when `n ≥ 10^9`, else `(n / 10^6, 'M')` when
`n ≥ 10^6`, else `(n / 1000, 'K')` when `n ≥ 1000`, else `(n, 'B')`,
with truncating division; in particular at 0, 999, 1000, 1999999 and
1000000000. -/
theorem to_human_size_spec :
    (∀ n : Nat,
      to_human_size n =
        if n ≥ 1000000000 then (n / 1000000000, 'G')
        else if n ≥ 1000000 then (n / 1000000, 'M')
        else if n ≥ 1000 then (n / 1000, 'K')
        else (n, 'B')) ∧
    to_human_size 0 = (0, 'B') ∧
    to_human_size 999 = (999, 'B') ∧
    to_human_size 1000 = (1, 'K') ∧
    to_human_size 1999999 = (1, 'M') ∧
    to_human_size 1000000000 = (1, 'G') := by
  refine ⟨fun n => rfl, ?_, ?_, ?_, ?_, ?_⟩ <;> decide

/-- C4: a declared byte size that is 0 or unparsable is normalized to
unknown (`none`), never `some 0`: no planned `EpisodeDownload` carries
`file_size = some 0`, and `retrieve_content_length` never returns
`some 0` either. -/
theorem planned_size_never_some_zero :
    (∀ (parseUrl : String → Option Url) (fileExists : String → Bool)
        (directory : String) (results : List (PodcastConfig × Channel))
        (dl : EpisodeDownload),
        dl ∈ fetch_sync_info parseUrl fileExists directory results →
        dl.file_size ≠ some 0) ∧
    ∀ resp : Option HeadResponse, retrieve_content_length resp ≠ some 0 := by
  constructor
  · intro parseUrl fileExists directory results dl h
    exact file_size_ne_some_zero_of_mem h
  · intro resp
    cases resp with
    | none => simp [retrieve_content_length]
    | some r =>
      unfold retrieve_content_length
      rw [Option.some_bind]
      by_cases hs : r.statusSuccess
      · rw [if_pos hs]
        cases e : r.contentLength with
        | none => simp
        | some s =>
          rw [Option.some_bind]
          exact bind_pos_ne_some_zero _
      · simp [hs]

/-- Witness for C4 at the sample feed: the planner produces `exDl`
with `file_size = some 1234 ≠ some 0`. -/
theorem planned_size_never_some_zero_witness :
    exDl ∈ fetch_sync_info exParse noFiles "/downloads" [(exPod, exChan)] ∧
    exDl.file_size ≠ some 0 :=
  ⟨by decide,
   planned_size_never_some_zero.1 exParse noFiles "/downloads"
     [(exPod, exChan)] exDl (by decide)⟩

/-- C5: per fetched channel the planner retains at most one episode;
any retained download is the image of the first item of the channel
(in feed order, newest first) that has a valid enclosure
(`List.findSome?` returns the value at the first item on which
`planItem` succeeds), subject to the already-downloaded filter. -/
theorem planChannel_at_most_first_valid
    (parseUrl : String → Option Url) (fileExists : String → Bool)
    (directory : String) (podcast : PodcastConfig) (channel : Channel) :
    (planChannel parseUrl fileExists directory podcast channel).length ≤ 1 ∧
    ∀ dl ∈ planChannel parseUrl fileExists directory podcast channel,
      channel.items.findSome?
        (planItem parseUrl (pushPath directory (podcast.title.getD channel.title)))
        = some dl ∧
      fileExists dl.file_path = false := by
  constructor
  · unfold planChannel
    refine le_trans (List.length_filter_le _ _) ?_
    rw [List.length_take]
    exact min_le_left _ _
  · intro dl h
    have h2 := (mem_planChannel h).2
    unfold planChannel at h
    rw [List.mem_filter] at h
    have h1 := mem_take_one h.1
    rw [head?_filterMap] at h1
    exact ⟨h1, h2⟩

/-- Witness for C5 at the sample feed: the plan has length ≤ 1 and its
single element comes from the first (only) valid item. -/
theorem planChannel_at_most_first_valid_witness :
    ((planChannel exParse noFiles "/downloads" exPod exChan).length ≤ 1 ∧
      exDl ∈ planChannel exParse noFiles "/downloads" exPod exChan) ∧
    exChan.items.findSome?
      (planItem exParse (pushPath "/downloads" (exPod.title.getD exChan.title)))
      = some exDl ∧
    noFiles exDl.file_path = false :=
  ⟨⟨(planChannel_at_most_first_valid exParse noFiles "/downloads" exPod exChan).1,
    by decide⟩,
   (planChannel_at_most_first_valid exParse noFiles "/downloads" exPod exChan).2
     exDl (by decide)⟩

/-- C6: every planned download's `file_path` is
`download_dir/<title>/<last path segment of the enclosure URL>` with
the fixed fallback `episode.mp3` when the URL path has no usable
segment. -/
theorem planned_file_path_resolution
    (parseUrl : String → Option Url) (fileExists : String → Bool)
    (directory : String) (podcast : PodcastConfig) (channel : Channel)
    (dl : EpisodeDownload)
    (h : dl ∈ planChannel parseUrl fileExists directory podcast channel) :
    ∃ item ∈ channel.items, ∃ enc, item.enclosure = some enc ∧
      ∃ url, parseUrl enc.url = some url ∧
        dl.file_path =
          pushPath (pushPath directory (podcast.title.getD channel.title))
            ((fileName url.path).getD "episode.mp3") := by
  obtain ⟨⟨item, hitem, hplan⟩, -⟩ := mem_planChannel h
  obtain ⟨enc, url, he, hu, -, -, -, hpath⟩ := planItem_eq_some hplan
  exact ⟨item, hitem, enc, he, url, hu, hpath⟩

/-- Witness for C6: the enclosure URL
`https://example.com/ep/42/show.mp3` under title `My Show` resolves to
`/downloads/My Show/show.mp3`. -/
theorem planned_file_path_resolution_witness :
    exDl ∈ planChannel exParse noFiles "/downloads" exPod exChan ∧
    exDl.file_path = "/downloads/My Show/show.mp3" ∧
    ∃ item ∈ exChan.items, ∃ enc, item.enclosure = some enc ∧
      ∃ url, exParse enc.url = some url ∧
        exDl.file_path =
          pushPath (pushPath "/downloads" (exPod.title.getD exChan.title))
            ((fileName url.path).getD "episode.mp3") :=
  ⟨by decide, by decide,
   planned_file_path_resolution exParse noFiles "/downloads" exPod exChan exDl
     (by decide)⟩

/-- C7: the subdirectory under the download root is the subscription's
display-title override when present, and otherwise the fetched
channel's own title. -/
theorem planned_title_override
    (parseUrl : String → Option Url) (fileExists : String → Bool)
    (directory : String) (podcast : PodcastConfig) (channel : Channel)
    (dl : EpisodeDownload)
    (h : dl ∈ planChannel parseUrl fileExists directory podcast channel) :
    ∃ fn, dl.file_path =
      pushPath (pushPath directory
        (match podcast.title with
         | some overrideTitle => overrideTitle
         | none => channel.title)) fn := by
  obtain ⟨⟨item, hitem, hplan⟩, -⟩ := mem_planChannel h
  obtain ⟨enc, url, -, -, -, -, -, hpath⟩ := planItem_eq_some hplan
  refine ⟨(fileName url.path).getD "episode.mp3", ?_⟩
  rw [hpath]
  cases podcast.title <;> rfl

/-- Witness for C7, covering both cases: with the override `My Show`
the subdirectory is `My Show`; without an override it is the channel
title `Example Channel`. -/
theorem planned_title_override_witness :
    (exDl ∈ planChannel exParse noFiles "/downloads" exPod exChan ∧
      ∃ fn, exDl.file_path =
        pushPath (pushPath "/downloads"
          (match exPod.title with
           | some overrideTitle => overrideTitle
           | none => exChan.title)) fn) ∧
    (exDlChanTitle ∈ planChannel exParse noFiles "/downloads" exPodNoTitle exChan ∧
      ∃ fn, exDlChanTitle.file_path =
        pushPath (pushPath "/downloads"
          (match exPodNoTitle.title with
           | some overrideTitle => overrideTitle
           | none => exChan.title)) fn) :=
  ⟨⟨by decide,
    planned_title_override exParse noFiles "/downloads" exPod exChan exDl
      (by decide)⟩,
   ⟨by decide,
    planned_title_override exParse noFiles "/downloads" exPodNoTitle exChan
      exDlChanTitle (by decide)⟩⟩

/-- C1: every planned download targets a file path that does not exist
at planning time, and a second run of the planner over the unchanged
feed data, against a filesystem populated by a fully successful first
run (every old file still present, every planned file now written),
plans zero downloads. -/
theorem fetch_sync_info_dedup_idempotent
    (parseUrl : String → Option Url) (fileExists : String → Bool)
    (directory : String) (results : List (PodcastConfig × Channel)) :
    (∀ dl ∈ fetch_sync_info parseUrl fileExists directory results,
      fileExists dl.file_path = false) ∧
    fetch_sync_info parseUrl
      (fun p => fileExists p ||
        (fetch_sync_info parseUrl fileExists directory results).any
          (fun dl => dl.file_path == p))
      directory results = [] := by
  constructor
  · intro dl h
    unfold fetch_sync_info at h
    rw [List.mem_flatMap] at h
    obtain ⟨pc, hpc, hdl⟩ := h
    exact (mem_planChannel hdl).2
  · rw [List.eq_nil_iff_forall_not_mem]
    intro dl hdl
    have h2 := by
      have hmem := hdl
      unfold fetch_sync_info at hmem
      rw [List.mem_flatMap] at hmem
      exact hmem
    obtain ⟨pc, hpc, hpcdl⟩ := h2
    have hex2 := (mem_planChannel hpcdl).2
    rw [Bool.or_eq_false_iff] at hex2
    obtain ⟨hex, hany⟩ := hex2
    have hcand : dl ∈ (pc.2.items.filterMap
        (planItem parseUrl (pushPath directory (pc.1.title.getD pc.2.title)))).take 1 := by
      unfold planChannel at hpcdl
      exact (List.mem_filter.mp hpcdl).1
    have hrun1 : dl ∈ fetch_sync_info parseUrl fileExists directory results := by
      unfold fetch_sync_info
      rw [List.mem_flatMap]
      refine ⟨pc, hpc, ?_⟩
      unfold planChannel
      rw [List.mem_filter]
      exact ⟨hcand, by simp [hex]⟩
    have hattained : (fetch_sync_info parseUrl fileExists directory results).any
        (fun d => d.file_path == dl.file_path) = true :=
      List.any_eq_true.mpr ⟨dl, hrun1, by simp⟩
    unfold fetch_sync_info at hattained
    rw [hattained] at hany
    exact absurd hany (by simp)

/-- Witness for C1 at the sample feed: the planned file does not exist
beforehand, and replanning after the first run's file is on disk plans
nothing. -/
theorem fetch_sync_info_dedup_idempotent_witness :
    noFiles exDl.file_path = false ∧
    fetch_sync_info exParse
      (fun p => noFiles p ||
        (fetch_sync_info exParse noFiles "/downloads" [(exPod, exChan)]).any
          (fun dl => dl.file_path == p))
      "/downloads" [(exPod, exChan)] = [] :=
  ⟨(fetch_sync_info_dedup_idempotent exParse noFiles "/downloads"
      [(exPod, exChan)]).1 exDl (by decide),
   (fetch_sync_info_dedup_idempotent exParse noFiles "/downloads"
      [(exPod, exChan)]).2⟩

/-- C2: contrary to the isolation requirement, `fetch_sync_info` as
written unwraps every fetch result (src/download.rs line 160), so one
failed feed panics the whole run and no subscription gets planned,
while the same batch without the failing feed plans its download. -/
theorem fetch_failure_aborts_planning :
    fetch_sync_info_run exParse noFiles "/downloads"
      [Except.error "connection refused", Except.ok (exPod, exChan)] = none ∧
    fetch_sync_info exParse noFiles "/downloads" [(exPod, exChan)] = [exDl] := by
  exact ⟨by decide, by decide⟩

/-- C8: for planner output, the aggregate fold of src/cli.rs reports
the partial flag true iff some task has unknown (`none`) size, and
when every size is known the reported total is the exact sum of the
declared sizes. -/
theorem aggregate_size_report
    (parseUrl : String → Option Url) (fileExists : String → Bool)
    (directory : String) (results : List (PodcastConfig × Channel)) :
    ((aggregate (fetch_sync_info parseUrl fileExists directory results)).2 = true ↔
      ∃ dl ∈ fetch_sync_info parseUrl fileExists directory results,
        dl.file_size = none) ∧
    ((∀ dl ∈ fetch_sync_info parseUrl fileExists directory results,
        dl.file_size ≠ none) →
      (aggregate (fetch_sync_info parseUrl fileExists directory results)).1 =
        ((fetch_sync_info parseUrl fileExists directory results).filterMap
          EpisodeDownload.file_size).sum) := by
  constructor
  · unfold aggregate
    rw [aggregate_foldl_snd]
    simp only [Bool.false_or, List.any_eq_true]
    constructor
    · rintro ⟨dl, hmem, hz⟩
      refine ⟨dl, hmem, ?_⟩
      have hne := file_size_ne_some_zero_of_mem hmem
      cases e : dl.file_size with
      | none => rfl
      | some n =>
        rw [e] at hz hne
        simp only [Option.getD_some, beq_iff_eq] at hz
        exact absurd (by rw [hz]) hne
    · rintro ⟨dl, hmem, hnone⟩
      exact ⟨dl, hmem, by simp [hnone]⟩
  · intro hall
    unfold aggregate
    rw [aggregate_foldl_fst, Nat.zero_add]
    exact sum_getD_eq_sum_filterMap _ hall

/-- Witness for C8 at the sample feed: the single planned task has
known size 1234, so the flag is false and the total is the exact sum. -/
theorem aggregate_size_report_witness :
    ((aggregate (fetch_sync_info exParse noFiles "/downloads" [(exPod, exChan)])).2 = true ↔
      ∃ dl ∈ fetch_sync_info exParse noFiles "/downloads" [(exPod, exChan)],
        dl.file_size = none) ∧
    (aggregate (fetch_sync_info exParse noFiles "/downloads" [(exPod, exChan)])).1 =
      ((fetch_sync_info exParse noFiles "/downloads" [(exPod, exChan)]).filterMap
        EpisodeDownload.file_size).sum :=
  ⟨(aggregate_size_report exParse noFiles "/downloads" [(exPod, exChan)]).1,
   (aggregate_size_report exParse noFiles "/downloads" [(exPod, exChan)]).2
     (by decide)⟩

/-- C10: every planned download's `file_path` ends in a non-empty file
name (the URL's last path segment or the fallback `episode.mp3`), so
the unwraps in `EpisodeDownload::file_name` cannot panic on
planner-produced values (UTF-8 validity is inherent: paths are built
from Rust `String`s). -/
theorem file_name_unwraps_safe
    (parseUrl : String → Option Url) (fileExists : String → Bool)
    (directory : String) (results : List (PodcastConfig × Channel))
    (dl : EpisodeDownload)
    (h : dl ∈ fetch_sync_info parseUrl fileExists directory results) :
    ∃ s, dl.fileNameStr = some s ∧ s ≠ "" ∧
      (s = "episode.mp3" ∨ fileName dl.url.path = some s) := by
  unfold fetch_sync_info at h
  rw [List.mem_flatMap] at h
  obtain ⟨pc, hpc, hdl⟩ := h
  obtain ⟨⟨item, hitem, hplan⟩, -⟩ := mem_planChannel hdl
  obtain ⟨enc, url, -, -, hurl, -, -, hpath⟩ := planItem_eq_some hplan
  unfold EpisodeDownload.fileNameStr
  rw [hpath]
  cases e : fileName url.path with
  | none =>
    refine ⟨"episode.mp3", ?_, by decide, Or.inl rfl⟩
    rw [Option.getD_none]
    exact fileName_pushPath _ (by decide) (by decide) (by decide) (by decide)
  | some s =>
    obtain ⟨h1, h2, h3, h4⟩ := fileName_props e
    refine ⟨s, ?_, ?_, Or.inr (by rw [hurl]; exact e)⟩
    · rw [Option.getD_some]
      exact fileName_pushPath _ h1 h2 h3 h4
    · intro hs
      rw [hs] at h1
      exact h1 rfl

/-- Witness for C10 at the sample feed: the planned download's file
name is `show.mp3`, nonempty, and the unwrap-model returns `some`. -/
theorem file_name_unwraps_safe_witness :
    exDl ∈ fetch_sync_info exParse noFiles "/downloads" [(exPod, exChan)] ∧
    ∃ s, exDl.fileNameStr = some s ∧ s ≠ "" ∧
      (s = "episode.mp3" ∨ fileName exDl.url.path = some s) :=
  ⟨by decide,
   file_name_unwraps_safe exParse noFiles "/downloads" [(exPod, exChan)] exDl
     (by decide)⟩

end Podcatcher
